import Mathlib

/-!
Verification of the TaskFlow task-queue system against its specification.

The definitions below are a shallow embedding of the Go sources:
  * `internal/infrastructure/grpc/errors.go` — gRPC error classification,
  * the streaming client (`StreamingGRPCClient.ExecuteTask`) — stream
    consumption, timeout selection, progress callbacks,
  * `internal/worker/handlers/grpc_task/handler.go` — the grpc_task handler,
  * `internal/application/task/service.go` + the HTTP task handler — broker
    error translation,
  * `pkg/progress/subscriber.go` — the progress subscription loop over Redis
    streams, together with a model of Redis `XREAD` id resolution,
  * `internal/interfaces/http/handler/progress_handler.go` — SSE fan-out.

Machine integers are modelled with `Int`/`Nat`; Go `error` values are tagged
inductives with one constructor per distinct `errors.New` value so that
`errors.Is` (identity comparison) is equality.
-/

namespace TaskFlow

/-! ## gRPC status codes and error classification
    Embedded from `internal/infrastructure/grpc/errors.go`. -/

/-- The gRPC transport status codes (google.golang.org/grpc/codes). -/
inductive Code
  | ok
  | cancelledC
  | unknown
  | invalidArgument
  | deadlineExceeded
  | notFound
  | alreadyExists
  | permissionDenied
  | resourceExhausted
  | failedPrecondition
  | aborted
  | outOfRange
  | unimplemented
  | internal
  | unavailable
  | dataLoss
  | unauthenticated
  deriving DecidableEq, Repr

/-- Function `isRetryable` from `errors.go` lines 46-65: the switch over status codes. -/
def isRetryable (code : Code) : Bool :=
  match code with
  | .unavailable | .resourceExhausted | .aborted | .deadlineExceeded | .internal => true
  | .invalidArgument | .notFound | .alreadyExists | .permissionDenied
  | .failedPrecondition | .unimplemented | .unauthenticated => false
  | _ => true

/-- The retryable code class exactly as the spec's table lists it (first row). -/
def specRetryableCodes : List Code :=
  [.unavailable, .resourceExhausted, .aborted, .deadlineExceeded, .internal]

/-- The non-retryable code class exactly as the spec's table lists it (second row). -/
def specNonRetryableCodes : List Code :=
  [.invalidArgument, .notFound, .alreadyExists, .permissionDenied,
   .failedPrecondition, .unimplemented, .unauthenticated]

/-- Go `error` values reaching the grpc_task handler. Distinct constructors
    model distinct `errors.New`/struct values; `wrapped` models
    `fmt.Errorf("...: %w", err)`. `remoteErr` is the `*GRPCError` struct built
    from an `error` variant of the response stream. -/
inductive GoErr
  | statusErr (code : Code) (msg : String)
  | wrapped (note : String) (inner : GoErr)
  | plain (msg : String)
  | remoteErr (code msg : String) (retryable : Bool)
  deriving DecidableEq, Repr

/-- Walk a wrapped error chain looking for a gRPC status, as
    `errors.As` does inside `status.FromError`. -/
def findStatus : GoErr → Option Code
  | .statusErr c _ => some c
  | .wrapped _ inner => findStatus inner
  | _ => none

/-- Function `status.FromError`: the status code (Unknown when the error carries no
    status) together with the `ok` flag. -/
def statusFromError (e : GoErr) : Code × Bool :=
  match findStatus e with
  | some c => (c, true)
  | none => (.unknown, false)

/-- The `*GRPCError` struct from `errors.go`. -/
structure GRPCError where
  code : String
  msg : String
  retryable : Bool
  deriving DecidableEq, Repr

/-- Printable name of a code, as `codes.Code.String()` (only the ones the
    embedding prints are spelled out). -/
def Code.name : Code → String
  | .unknown => "Unknown"
  | .unavailable => "Unavailable"
  | .notFound => "NotFound"
  | _ => "Code"

/-- Function `ConvertError` from `errors.go` lines 22-43, on a non-nil error: a
    status-less error becomes `UNKNOWN`/retryable, otherwise the code is
    classified with `isRetryable`. -/
def convertError (e : GoErr) : GRPCError :=
  let (c, ok) := statusFromError e
  if ok then
    { code := c.name, msg := "", retryable := isRetryable c }
  else
    { code := "UNKNOWN", msg := "", retryable := true }

/-- Outcome of a handler's `ProcessTask` as seen by the asynq runtime. -/
inductive TaskOutcome
  | success
  | skipRetry
  | retryErr (e : GoErr)
  deriving DecidableEq, Repr

/-- Function `handleError` from `grpc_task/handler.go` lines 200-217: non-retryable
    converted errors become `asynq.SkipRetry`, everything else is returned
    unchanged (so the broker retries). -/
def handleError (e : GoErr) : TaskOutcome :=
  let grpcErr := convertError e
  if !grpcErr.retryable then .skipRetry else .retryErr e

/-! ## The response stream consumption
    Embedded from `StreamingGRPCClient.ExecuteTask` (streaming client,
    lines 364-416). -/

/-- Terminal status of a remote task (pb.TaskStatus). -/
inductive RemoteStatus
  | completed
  | failed
  | cancelledS
  deriving DecidableEq, Repr

/-- A `result` message from the response stream (pb.TaskResult, the fields
    the worker reads). -/
structure TaskResult where
  taskId : String
  status : RemoteStatus
  durationMs : Int
  deriving DecidableEq, Repr

/-- A `progress` message from the response stream (pb.Progress). -/
structure ProgressMsg where
  percentage : Int
  stage : String
  message : String
  deriving DecidableEq, Repr

/-- One message of the server stream: the three response variants. -/
inductive StreamItem
  | progress (p : ProgressMsg)
  | result (r : TaskResult)
  | errorMsg (code msg : String) (retryable : Bool)
  deriving DecidableEq, Repr

/-- How the stream terminates after its messages: normal `io.EOF` or a
    transport error from `Recv`. -/
inductive StreamEnd
  | eof
  | transportErr (e : GoErr)
  deriving DecidableEq, Repr

/-- Result of `ExecuteTask`: a task result or a Go error. -/
inductive ExecResult
  | ok (r : TaskResult)
  | fail (e : GoErr)
  deriving DecidableEq, Repr

/-- The receive loop of `ExecuteTask` (lines 385-409): `progress` invokes the
    callback, `result` overwrites the single `result` variable, an `error`
    variant returns a `*GRPCError` immediately; `acc` is the `result`
    variable. -/
def recvLoop (items : List StreamItem) (ending : StreamEnd) (acc : Option TaskResult) :
    ExecResult :=
  match items with
  | [] =>
    match ending with
    | .transportErr e => .fail (.wrapped "stream error" e)
    | .eof =>
      match acc with
      | some r => .ok r
      | none => .fail (.plain "no result received from stream")
  | i :: rest =>
    match i with
    | .progress _ => recvLoop rest ending acc
    | .result r => recvLoop rest ending (some r)
    | .errorMsg c m retr => .fail (.remoteErr c m retr)

/-- Full `ExecuteTask` consumption of a whole response stream. -/
def executeTask (items : List StreamItem) (ending : StreamEnd) : ExecResult :=
  recvLoop items ending none

/-- The `result` messages of a stream, in order. -/
def resultsOf (items : List StreamItem) : List TaskResult :=
  items.filterMap fun i =>
    match i with
    | .result r => some r
    | _ => none

/-- Whether a stream contains an `error` variant. -/
def hasErrorItem (items : List StreamItem) : Bool :=
  items.any fun i =>
    match i with
    | .errorMsg _ _ _ => true
    | _ => false

/-! ## Timeout selection
    Embedded from `buildRequest` (`grpc_task/handler.go` lines 145-197) and
    the timeout guard of `ExecuteTask` (lines 369-373). All durations are in
    milliseconds. -/

/-- The timeout computation of `buildRequest`: start from the per-service
    configured timeout, fall back to the global default, then to 300s, and
    finally let a payload `timeout_ms` option override unconditionally. -/
def selectTimeoutMs (payloadTimeoutMs : Option Int) (serviceTimeoutMs defaultTimeoutMs : Int) :
    Int :=
  let t1 := if serviceTimeoutMs = 0 then defaultTimeoutMs else serviceTimeoutMs
  let t2 := if t1 = 0 then 300000 else t1
  match payloadTimeoutMs with
  | some v => v
  | none => t2

/-- The guard at the top of `ExecuteTask`: the request's `timeout_ms` is used
    when positive, otherwise the client config timeout. -/
def executeTimeoutMs (clientTimeoutMs reqTimeoutMs : Int) : Int :=
  if reqTimeoutMs > 0 then reqTimeoutMs else clientTimeoutMs

end TaskFlow

namespace TaskFlow

/-! ## Claim C1 — transport error classification -/

/-- C1: every stream/transport error of a grpc_task call is classified by its
    transport code per the spec table: the five listed codes are retryable
    (ordinary error), the seven listed codes non-retryable (`SkipRetry`), and
    any other or unmapped code is retryable. -/
theorem c1_transport_error_classification :
    ∀ (c : Code) (m note : String),
      (isRetryable c = true ↔ c ∈ specRetryableCodes ∨
        (c ∉ specRetryableCodes ∧ c ∉ specNonRetryableCodes)) ∧
      (isRetryable c = false ↔ c ∈ specNonRetryableCodes) ∧
      handleError (.wrapped note (.statusErr c m)) =
        (if c ∈ specNonRetryableCodes then .skipRetry
         else .retryErr (.wrapped note (.statusErr c m))) := by
  intro c m note
  cases c <;> simp [isRetryable, specRetryableCodes, specNonRetryableCodes,
    handleError, convertError, statusFromError, findStatus]

end TaskFlow

namespace TaskFlow

/-! ## Claim C2 — the result requirement after stream termination -/

/-- C2 counterexample: a normally terminating stream on which two distinct
    `result` messages were seen is accepted by `ExecuteTask` (the second
    overwrites the first), so the code does not require exactly one
    `result` to have been seen. -/
theorem c2_two_results_accepted :
    executeTask
        [.result ⟨"t1", .completed, 1⟩, .result ⟨"t1", .completed, 2⟩] .eof =
      .ok ⟨"t1", .completed, 2⟩ ∧
    (⟨"t1", .completed, 1⟩ : TaskResult) ≠ ⟨"t1", .completed, 2⟩ := by
  constructor
  · rfl
  · decide

theorem getLast?_cons_getD {α : Type} (a : α) (l : List α) :
    (a :: l).getLast? = some ((l.getLast?).getD a) := by
  induction l generalizing a with
  | nil => rfl
  | cons b t ih => simp [List.getLast?_cons_cons, ih]

theorem recvLoop_eof_eq (items : List StreamItem) (hne : hasErrorItem items = false) :
    ∀ acc, recvLoop items .eof acc =
      (match (resultsOf items).getLast? with
       | some r => .ok r
       | none =>
         match acc with
         | some r => .ok r
         | none => .fail (.plain "no result received from stream")) := by
  induction items with
  | nil => intro acc; rfl
  | cons i rest ih =>
    intro acc
    cases i with
    | progress p =>
      have hrest : hasErrorItem rest = false := by
        simpa [hasErrorItem] using hne
      simpa [recvLoop, resultsOf] using ih hrest acc
    | result r =>
      have hrest : hasErrorItem rest = false := by
        simpa [hasErrorItem] using hne
      have hres : resultsOf (StreamItem.result r :: rest) = r :: resultsOf rest := by
        simp [resultsOf]
      rw [show recvLoop (StreamItem.result r :: rest) .eof acc =
            recvLoop rest .eof (some r) from rfl,
        ih hrest (some r), hres, getLast?_cons_getD r (resultsOf rest)]
      rcases h : (resultsOf rest).getLast? with _ | r' <;> simp [h]
    | errorMsg c m retr =>
      simp [hasErrorItem] at hne

/-- C2 amended: after a normally terminating stream with no `error` variant,
    `ExecuteTask` requires at least one `result`: with none it fails with the
    `no result received` error, and otherwise exactly one terminal outcome is
    recorded — the last `result` seen (a second `result` overwrites the
    first rather than being rejected or added). -/
theorem c2_amended_result_requirement (items : List StreamItem)
    (hne : hasErrorItem items = false) :
    (resultsOf items = [] →
      executeTask items .eof = .fail (.plain "no result received from stream")) ∧
    (∀ r, (resultsOf items).getLast? = some r → executeTask items .eof = .ok r) := by
  constructor
  · intro hres
    simp [executeTask, recvLoop_eof_eq items hne, hres]
  · intro r hr
    simp [executeTask, recvLoop_eof_eq items hne, hr]

/-- Witness for the amended C2 at concrete streams: a result-free stream
    fails with `no result received`, and a two-result stream records the
    last result. -/
theorem c2_amended_result_requirement_witness :
    executeTask [.progress ⟨10, "s", "m"⟩] .eof =
      .fail (.plain "no result received from stream") ∧
    executeTask
        [.result ⟨"t1", .completed, 1⟩, .result ⟨"t1", .failed, 2⟩] .eof =
      .ok ⟨"t1", .failed, 2⟩ := by
  constructor
  · exact (c2_amended_result_requirement [.progress ⟨10, "s", "m"⟩] (by decide)).1 (by decide)
  · exact (c2_amended_result_requirement
      [.result ⟨"t1", .completed, 1⟩, .result ⟨"t1", .failed, 2⟩] (by decide)).2
      ⟨"t1", .failed, 2⟩ (by decide)

end TaskFlow

namespace TaskFlow

/-! ## Claim C3 — timeout selection precedence -/

/-- C3 counterexample: with a payload option of 1000ms and no service or
    default configuration, the selected timeout is 1000ms — far below 300s —
    and it is also what the streaming call applies, so 300 seconds is not a
    hard floor on the resulting timeout. -/
theorem c3_no_hard_floor :
    selectTimeoutMs (some 1000) 0 0 = 1000 ∧
    executeTimeoutMs 300000 (selectTimeoutMs (some 1000) 0 0) = 1000 ∧
    ¬ (300000 ≤ selectTimeoutMs (some 1000) 0 0) := by
  refine ⟨rfl, rfl, by decide⟩

/-- C3 amended: the timeout applied to the remote streaming call follows the
    precedence payload option > per-service config > global default > 300s,
    where 300s is the last fallback default (not a floor); a positive selected
    timeout is exactly what `ExecuteTask` applies to the call. -/
theorem c3_amended_timeout_precedence (p : Option Int) (svc dflt client : Int) :
    (∀ v, p = some v → selectTimeoutMs p svc dflt = v) ∧
    (p = none → svc ≠ 0 → selectTimeoutMs p svc dflt = svc) ∧
    (p = none → svc = 0 → dflt ≠ 0 → selectTimeoutMs p svc dflt = dflt) ∧
    (p = none → svc = 0 → dflt = 0 → selectTimeoutMs p svc dflt = 300000) ∧
    (0 < selectTimeoutMs p svc dflt →
      executeTimeoutMs client (selectTimeoutMs p svc dflt) = selectTimeoutMs p svc dflt) := by
  refine ⟨?_, ?_, ?_, ?_, ?_⟩
  · intro v hv; simp [selectTimeoutMs, hv]
  · intro hp hsvc; simp [selectTimeoutMs, hp, hsvc]
  · intro hp hsvc hd; simp [selectTimeoutMs, hp, hsvc, hd]
  · intro hp hsvc hd; simp [selectTimeoutMs, hp, hsvc, hd]
  · intro hpos; simp [executeTimeoutMs, hpos]

/-- Witness for the amended C3 at concrete configurations: every precedence
    level is exercised. -/
theorem c3_amended_timeout_precedence_witness :
    selectTimeoutMs (some 1000) 5000 7000 = 1000 ∧
    selectTimeoutMs none 5000 7000 = 5000 ∧
    selectTimeoutMs none 0 7000 = 7000 ∧
    selectTimeoutMs none 0 0 = 300000 ∧
    executeTimeoutMs 42 (selectTimeoutMs none 0 0) = 300000 := by
  refine ⟨(c3_amended_timeout_precedence (some 1000) 5000 7000 42).1 1000 rfl,
    (c3_amended_timeout_precedence none 5000 7000 42).2.1 rfl (by decide),
    (c3_amended_timeout_precedence none 0 7000 42).2.2.1 rfl rfl (by decide),
    (c3_amended_timeout_precedence none 0 0 42).2.2.2.1 rfl rfl rfl,
    ?_⟩
  have h := (c3_amended_timeout_precedence none 0 0 42).2.2.2.2 (by decide)
  simpa using h

end TaskFlow

namespace TaskFlow

/-! ## Claim C5 — grpc_task pre-execution gating
    Embedded from `ProcessTask` (`grpc_task/handler.go` lines 47-107),
    `GRPCTaskPayload.Validate` (pkg/payload) and the client manager. -/

/-- The gRPC task payload (pkg/payload `GRPCTaskPayload`): `service` required,
    `method` optional, plus opaque data and options. -/
structure GRPCTaskPayload where
  service : String
  method : String
  timeoutMsOpt : Option Int
  deriving DecidableEq, Repr

/-- Validation `GRPCTaskPayload.Validate`: only a missing (empty) `service` is an
    error. -/
def payloadValidate (p : GRPCTaskPayload) : Bool :=
  p.service != ""

/-- The client manager as the grpc_task handler consults it: for each
    registered service name, whether its managed client reports healthy
    (`IsHealthy`). -/
structure ClientManager where
  clients : List (String × Bool)
  deriving DecidableEq, Repr

/-- Lookup `ClientManager.HasService`. -/
def hasService (m : ClientManager) (svc : String) : Bool :=
  (m.clients.lookup svc).isSome

/-- Lookup `ClientManager.GetClient` followed by `IsHealthy`: the health flag when
    the service is registered. -/
def getClientHealth (m : ClientManager) (svc : String) : Option Bool :=
  m.clients.lookup svc

/-- The decision the grpc_task `ProcessTask` takes before opening the remote
    stream: steps 1-5 of the handler (unmarshal, validate, service lookup,
    client fetch, health check). `parsed = none` models a payload that fails
    to deserialize. `proceed` means the handler goes on to build the request
    and execute the call. -/
inductive PreDecision
  | skip
  | retry (msg : String)
  | proceed (p : GRPCTaskPayload)
  deriving DecidableEq, Repr

/-- Handler `ProcessTask` lines 47-107 as a decision function. -/
def processTaskGate (parsed : Option GRPCTaskPayload) (m : ClientManager) : PreDecision :=
  match parsed with
  | none => .skip
  | some p =>
    if !payloadValidate p then .skip
    else if !hasService m p.service then .skip
    else
      match getClientHealth m p.service with
      | none => .retry ("failed to get client for " ++ p.service)
      | some healthy =>
        if !healthy then .retry ("service " ++ p.service ++ " unavailable")
        else .proceed p

/-- C5: the handler returns SkipRetry when the payload fails to deserialize,
    when it fails validation (missing `service`), or when the service is not
    registered in the client manager; when the service exists but its client
    is unhealthy, it returns an ordinary retryable error. -/
theorem c5_gating (parsed : Option GRPCTaskPayload) (m : ClientManager) :
    (parsed = none → processTaskGate parsed m = .skip) ∧
    (∀ p, parsed = some p → p.service = "" → processTaskGate parsed m = .skip) ∧
    (∀ p, parsed = some p → hasService m p.service = false →
      processTaskGate parsed m = .skip) ∧
    (∀ p, parsed = some p → p.service ≠ "" →
      getClientHealth m p.service = some false →
      processTaskGate parsed m = .retry ("service " ++ p.service ++ " unavailable")) := by
  refine ⟨?_, ?_, ?_, ?_⟩
  · intro h; simp [h, processTaskGate]
  · intro p hp hsvc
    simp [hp, processTaskGate, payloadValidate, hsvc]
  · intro p hp hlook
    by_cases hv : payloadValidate p
    · simp [hp, processTaskGate, hv, hlook]
    · simp [hp, processTaskGate, hv]
  · intro p hp hsvc hhealth
    have hv : payloadValidate p = true := by
      simp [payloadValidate, hsvc]
    have hlook : List.lookup p.service m.clients = some false := hhealth
    have hhas : hasService m p.service = true := by
      simp [hasService, hlook]
    simp only [hp, processTaskGate, hv, hhas, Bool.not_true, Bool.false_eq_true,
      if_false, hhealth]
    simp

/-- Witness for C5 at a concrete manager: a payload naming an unregistered
    service is skipped and one naming an unhealthy service retries. -/
theorem c5_gating_witness :
    processTaskGate (some ⟨"ghost", "run", none⟩) ⟨[("llm", false)]⟩ = .skip ∧
    processTaskGate (some ⟨"llm", "chat", none⟩) ⟨[("llm", false)]⟩ =
      .retry "service llm unavailable" ∧
    processTaskGate none ⟨[("llm", false)]⟩ = .skip ∧
    processTaskGate (some ⟨"", "chat", none⟩) ⟨[("llm", false)]⟩ = .skip := by
  refine ⟨?_, ?_, ?_, ?_⟩
  · exact (c5_gating (some ⟨"ghost", "run", none⟩) ⟨[("llm", false)]⟩).2.2.1
      ⟨"ghost", "run", none⟩ rfl (by decide)
  · have h := (c5_gating (some ⟨"llm", "chat", none⟩) ⟨[("llm", false)]⟩).2.2.2
      ⟨"llm", "chat", none⟩ rfl (by decide) (by decide)
    simpa using h
  · exact (c5_gating none ⟨[("llm", false)]⟩).1 rfl
  · exact (c5_gating (some ⟨"", "chat", none⟩) ⟨[("llm", false)]⟩).2.1
      ⟨"", "chat", none⟩ rfl rfl

end TaskFlow

namespace TaskFlow

/-! ## Claim C4 — progress publishing during streaming
    The stream consumption is embedded from `StreamingGRPCClient.ExecuteTask`
    (lines 385-409): the `onProgress` callback runs synchronously between one
    `Recv` and the next. The publishing callback itself is the one wired in
    `cmd/server/main.go` (the handler revision taking a progress publisher),
    whose body is not among the sources; it is modelled from the spec. -/

/-- An entry appended to the per-task progress log by `Publisher.Publish`
    (pkg/progress): stream key plus the published fields. -/
structure PubEntry where
  key : String
  percentage : Int
  stage : String
  message : String
  timestampMs : Int
  deriving DecidableEq, Repr

/-- Modelled from the spec: the grpc_task handler's `onProgress` callback of
    the publisher-wired handler revision (absent from the sources; its caller
    in `cmd/server/main.go` and the spec §4.4 step 4 describe it) publishes
    one entry to the per-task log `progress:<task_id>` carrying the incoming
    `percentage`, `stage`, `message` and the current timestamp. -/
def mkPubEntry (taskId : String) (now : Int) (p : ProgressMsg) : PubEntry :=
  { key := "progress:" ++ taskId
    percentage := p.percentage
    stage := p.stage
    message := p.message
    timestampMs := now }

/-- One observable step of the streaming loop: a stream read (`Recv`) or a
    publish attempt with its success flag. -/
inductive Ev4
  | readEv (i : StreamItem)
  | pubEv (e : PubEntry) (ok : Bool)
  deriving DecidableEq, Repr

/-- The receive loop with the publishing callback, producing the event trace,
    the entries actually appended to the log (failed publishes append
    nothing; per the spec they are logged and swallowed), and the call
    outcome. `n` counts progress messages so far; `now`/`pubOk` script the
    clock and the publisher's success per progress message. -/
def recvLoopPub (taskId : String) (now : Nat → Int) (pubOk : Nat → Bool) :
    List StreamItem → StreamEnd → Nat → Option TaskResult →
      List Ev4 × List PubEntry × ExecResult
  | [], ending, _, acc =>
    ([], [],
      match ending with
      | .transportErr e => .fail (.wrapped "stream error" e)
      | .eof =>
        match acc with
        | some r => .ok r
        | none => .fail (.plain "no result received from stream"))
  | i :: rest, ending, n, acc =>
    match i with
    | .progress p =>
      let e := mkPubEntry taskId (now n) p
      let okb := pubOk n
      let step := recvLoopPub taskId now pubOk rest ending (n + 1) acc
      (.readEv i :: .pubEv e okb :: step.1,
       (if okb then e :: step.2.1 else step.2.1), step.2.2)
    | .result r =>
      let step := recvLoopPub taskId now pubOk rest ending n (some r)
      (.readEv i :: step.1, step.2.1, step.2.2)
    | .errorMsg c m retr =>
      ([.readEv i], [], .fail (.remoteErr c m retr))

/-- Call `ExecuteTask` with the publishing callback. -/
def executeTaskPub (taskId : String) (now : Nat → Int) (pubOk : Nat → Bool)
    (items : List StreamItem) (ending : StreamEnd) :
    List Ev4 × List PubEntry × ExecResult :=
  recvLoopPub taskId now pubOk items ending 0 none

/-- The progress messages the loop actually reads before it stops (an `error`
    variant aborts the loop). -/
def progressSeen : List StreamItem → List ProgressMsg
  | [] => []
  | .progress p :: rest => p :: progressSeen rest
  | .result _ :: rest => progressSeen rest
  | .errorMsg _ _ _ :: _ => []

/-- The log the spec expects: one entry per progress message, in order, with
    the scripted timestamps. -/
def expectedLog (taskId : String) (now : Nat → Int) (n : Nat) :
    List ProgressMsg → List PubEntry
  | [] => []
  | p :: rest => mkPubEntry taskId (now n) p :: expectedLog taskId now (n + 1) rest

/-- A trace is synchronous when every `progress` read is immediately followed
    by its publish attempt, before any further stream read. -/
def syncTrace : List Ev4 → Bool
  | [] => true
  | .readEv (.progress _) :: .pubEv _ _ :: tr => syncTrace tr
  | .readEv (.progress _) :: _ => false
  | .readEv _ :: tr => syncTrace tr
  | .pubEv _ _ :: _ => false

theorem recvLoopPub_outcome (taskId : String) (now : Nat → Int) (pubOk : Nat → Bool)
    (items : List StreamItem) (ending : StreamEnd) :
    ∀ n acc, (recvLoopPub taskId now pubOk items ending n acc).2.2 =
      recvLoop items ending acc := by
  induction items with
  | nil => intro n acc; rfl
  | cons i rest ih =>
    intro n acc
    cases i with
    | progress p => simpa [recvLoopPub, recvLoop] using ih (n + 1) acc
    | result r => simpa [recvLoopPub, recvLoop] using ih n (some r)
    | errorMsg c m retr => rfl

theorem recvLoopPub_log (taskId : String) (now : Nat → Int)
    (items : List StreamItem) (ending : StreamEnd) :
    ∀ n acc, (recvLoopPub taskId now (fun _ => true) items ending n acc).2.1 =
      expectedLog taskId now n (progressSeen items) := by
  induction items with
  | nil => intro n acc; rfl
  | cons i rest ih =>
    intro n acc
    cases i with
    | progress p => simpa [recvLoopPub, progressSeen, expectedLog] using ih (n + 1) acc
    | result r => simpa [recvLoopPub, progressSeen] using ih n (some r)
    | errorMsg c m retr => rfl

theorem recvLoopPub_key (taskId : String) (now : Nat → Int) (pubOk : Nat → Bool)
    (items : List StreamItem) (ending : StreamEnd) :
    ∀ n acc e, e ∈ (recvLoopPub taskId now pubOk items ending n acc).2.1 →
      e.key = "progress:" ++ taskId := by
  induction items with
  | nil => intro n acc e he; simp [recvLoopPub] at he
  | cons i rest ih =>
    intro n acc e he
    cases i with
    | progress p =>
      simp only [recvLoopPub] at he
      by_cases hok : pubOk n
      · simp [hok] at he
        rcases he with he | he
        · simp [he, mkPubEntry]
        · exact ih (n + 1) acc e he
      · simp [hok] at he
        exact ih (n + 1) acc e he
    | result r =>
      simp only [recvLoopPub] at he
      exact ih n (some r) e he
    | errorMsg c m retr => simp [recvLoopPub] at he

theorem recvLoopPub_sync (taskId : String) (now : Nat → Int) (pubOk : Nat → Bool)
    (items : List StreamItem) (ending : StreamEnd) :
    ∀ n acc, syncTrace (recvLoopPub taskId now pubOk items ending n acc).1 = true := by
  induction items with
  | nil => intro n acc; rfl
  | cons i rest ih =>
    intro n acc
    cases i with
    | progress p => simpa [recvLoopPub, syncTrace] using ih (n + 1) acc
    | result r => simpa [recvLoopPub, syncTrace] using ih n (some r)
    | errorMsg c m retr => rfl

/-- C4: during a grpc_task streaming call, (a) every received `progress`
    message leads to exactly one publish on the per-task log carrying its
    percentage, stage, message and the current timestamp, in order; (b) every
    published entry goes to key `progress:<task_id>`; (c) every publish
    happens synchronously before the next stream read; (d) the call outcome
    never depends on publish success or failure — a failed publish does not
    fail the task. -/
theorem c4_progress_publishing (taskId : String) (now : Nat → Int)
    (pubOk : Nat → Bool) (items : List StreamItem) (ending : StreamEnd) :
    (executeTaskPub taskId now (fun _ => true) items ending).2.1 =
      expectedLog taskId now 0 (progressSeen items) ∧
    (∀ e, e ∈ (executeTaskPub taskId now pubOk items ending).2.1 →
      e.key = "progress:" ++ taskId) ∧
    syncTrace (executeTaskPub taskId now pubOk items ending).1 = true ∧
    (executeTaskPub taskId now pubOk items ending).2.2 = executeTask items ending := by
  refine ⟨recvLoopPub_log taskId now items ending 0 none,
    fun e he => recvLoopPub_key taskId now pubOk items ending 0 none e he,
    recvLoopPub_sync taskId now pubOk items ending 0 none,
    recvLoopPub_outcome taskId now pubOk items ending 0 none⟩

/-- Witness for C4 at a concrete stream: the hypothesis of the membership
    conjunct is discharged on a concrete published entry. -/
theorem c4_progress_publishing_witness :
    (executeTaskPub "t9" (fun n => (100 : Int) + n) (fun _ => true)
        [.progress ⟨20, "load", "loading"⟩, .result ⟨"t9", .completed, 5⟩] .eof).2.1 =
      [⟨"progress:t9", 20, "load", "loading", 100⟩] ∧
    (⟨"progress:t9", 20, "load", "loading", 100⟩ : PubEntry).key = "progress:" ++ "t9" := by
  constructor
  · rfl
  · exact (c4_progress_publishing "t9" (fun n => (100 : Int) + n) (fun _ => true)
      [.progress ⟨20, "load", "loading"⟩, .result ⟨"t9", .completed, 5⟩] .eof).2.1
      ⟨"progress:t9", 20, "load", "loading", 100⟩ (by rw [show (executeTaskPub "t9"
        (fun n => (100 : Int) + n) (fun _ => true) [.progress ⟨20, "load", "loading"⟩,
        .result ⟨"t9", .completed, 5⟩] .eof).2.1 =
          [⟨"progress:t9", 20, "load", "loading", 100⟩] from rfl]; simp)

end TaskFlow

namespace TaskFlow

/-! ## Claim C6 — broker error translation for GetTask
    Embedded from `internal/application/task/service.go` (`Service.GetTask`,
    lines 110-135, and its local error values, lines 14-20),
    `internal/application/task/queries.go` (`GetTaskQuery.Validate`) and
    `internal/interfaces/http/handler/task_handler.go` (`TaskHandler.Get`,
    lines 103-150). Distinct `errors.New` values are distinct constructors;
    `errors.Is` with no wrapping is plain equality. -/

/-- Error values in play around GetTask. `appX` constructors are the
    `pkg/errors` values the HTTP handler compares against; `svcTaskNotFound`
    is the separate `errors.New("task not found")` declared inside
    `internal/application/task/service.go`; `asynqTaskNotFound` is the
    broker's `asynq.ErrTaskNotFound`; `brokerOther` any other broker
    failure. -/
inductive ErrVal
  | appTaskNotFound
  | appInvalidTaskID
  | appInvalidQueue
  | svcTaskNotFound
  | asynqTaskNotFound
  | brokerOther (msg : String)
  deriving DecidableEq, Repr

/-- Comparison `errors.Is` on unwrapped error values: identity. -/
def errorsIs (e target : ErrVal) : Bool :=
  e = target

/-- The task info the service copies out of the broker (only identity fields
    matter here). -/
structure BrokerTaskInfo where
  id : String
  queue : String
  state : String
  deriving DecidableEq, Repr

/-- Validation `GetTaskQuery.Validate` from queries.go: empty id / empty queue are the
    `pkg/errors` validation values. -/
def getTaskQueryValidate (taskId queue : String) : Option ErrVal :=
  if taskId = "" then some .appInvalidTaskID
  else if queue = "" then some .appInvalidQueue
  else none

/-- Method `Service.GetTask` (service.go lines 110-135): validation first, then the
    broker lookup; ANY broker failure is replaced by the service-local
    `ErrTaskNotFound` value. -/
def serviceGetTask (taskId queue : String) (broker : Except ErrVal BrokerTaskInfo) :
    Except ErrVal BrokerTaskInfo :=
  match getTaskQueryValidate taskId queue with
  | some e => .error e
  | none =>
    match broker with
    | .error _ => .error .svcTaskNotFound
    | .ok info => .ok info

/-- The error translation of `TaskHandler.Get` (task_handler.go lines
    117-137): compare with the `pkg/errors` values, defaulting to
    500/INTERNAL_ERROR. -/
def taskHandlerGetStatus (e : ErrVal) : Nat × String :=
  if errorsIs e .appInvalidTaskID then (400, "INVALID_TASK_ID")
  else if errorsIs e .appInvalidQueue then (400, "INVALID_QUEUE")
  else if errorsIs e .appTaskNotFound then (404, "TASK_NOT_FOUND")
  else (500, "INTERNAL_ERROR")

/-- Endpoint `TaskHandler.Get` end to end: empty queue defaults to "default"; a
    service error is translated to an HTTP status and code, success is 200. -/
def taskHandlerGet (taskId queue : String) (broker : Except ErrVal BrokerTaskInfo) :
    Nat × String :=
  let q := if queue = "" then "default" else queue
  match serviceGetTask taskId q broker with
  | .error e => taskHandlerGetStatus e
  | .ok _ => (200, "")

/-- C6: evaluated at the failing input — the broker reports
    `asynq.ErrTaskNotFound` for task "missing" — the deployed code answers
    500 INTERNAL_ERROR, not 404 TASK_NOT_FOUND: `Service.GetTask` returns its
    package-local not-found value, which is a different error value than the
    `pkg/errors` one the HTTP handler compares against (the repository's own
    `service_test.go` expects the `pkg/errors` value). Any other broker
    error is answered identically. -/
theorem c6_gettask_translation_bug :
    taskHandlerGet "missing" "default" (.error .asynqTaskNotFound) =
      (500, "INTERNAL_ERROR") ∧
    serviceGetTask "missing" "default" (.error .asynqTaskNotFound) =
      .error .svcTaskNotFound ∧
    errorsIs .svcTaskNotFound .appTaskNotFound = false ∧
    taskHandlerGetStatus .appTaskNotFound = (404, "TASK_NOT_FOUND") ∧
    taskHandlerGet "missing" "default" (.error (.brokerOther "conn refused")) =
      (500, "INTERNAL_ERROR") := by
  refine ⟨rfl, rfl, by decide, rfl, rfl⟩

end TaskFlow

namespace TaskFlow

/-! ## Claim C7 — the subscription loop
    Embedded from `Subscriber.Subscribe` (pkg/progress/subscriber.go lines
    45-125). The goroutine is a loop whose suspension points are the context
    check, the blocking `XRead` and the channel send; a run is scripted by
    the sequence of read outcomes, with context cancellation observable at
    those suspension points (`cancelledNow`). -/

/-- A Redis stream entry id `ms-seq`. -/
structure EID where
  ms : Nat
  seq : Nat
  deriving DecidableEq, Repr

/-- Strict ordering of stream ids (Redis XADD order). -/
def eidLt (a b : EID) : Bool :=
  a.ms < b.ms || (a.ms = b.ms && a.seq < b.seq)

/-- One parsed entry of a per-task progress log (`parseMessage`). -/
structure Entry where
  id : EID
  percentage : Int
  stage : String
  message : String
  timestampMs : Int
  isFinal : Bool
  status : String
  deriving DecidableEq, Repr

/-- The outcome of one blocking `XRead` iteration as seen by the loop:
    `redis.Nil` (timeout, re-poll), a cancelled context, a read error with a
    live context, or a batch of messages. -/
inductive ReadOutcome
  | timeout
  | cancelledNow
  | readErr (msg : String)
  | batch (msgs : List Entry)
  deriving DecidableEq, Repr

/-- One value sent over the subscription channel (`SubscribeResult`): an
    entry or an error result. -/
inductive SubEvent
  | yield (e : Entry)
  | yieldErr (msg : String)
  deriving DecidableEq, Repr

/-- Why the goroutine returned (closing the channel). -/
inductive CloseReason
  | finalSeen
  | readError
  | ctxCancelled
  | drained
  deriving DecidableEq, Repr

/-- The inner message loop of `Subscribe` (lines 100-120): each message is
    sent; an `is_final` message ends the subscription. Returns the events
    sent and whether the final entry was reached. -/
def processBatch : List Entry → List SubEvent × Bool
  | [] => ([], false)
  | m :: rest =>
    if m.isFinal then ([.yield m], true)
    else
      let s := processBatch rest
      (.yield m :: s.1, s.2)

/-- The subscription goroutine (lines 55-122) over a scripted sequence of
    read outcomes: cancellation returns silently, `redis.Nil` re-polls, a
    read error sends one error result and returns, a batch is forwarded and
    ends the loop if it contains the final entry. -/
def subRun : List ReadOutcome → List SubEvent × CloseReason
  | [] => ([], .drained)
  | .cancelledNow :: _ => ([], .ctxCancelled)
  | .timeout :: rest => subRun rest
  | .readErr m :: _ => ([.yieldErr m], .readError)
  | .batch msgs :: rest =>
    let pb := processBatch msgs
    if pb.2 then (pb.1, .finalSeen)
    else
      let s := subRun rest
      (pb.1 ++ s.1, s.2)

/-- The entries yielded among a sequence of channel events. -/
def yieldsOf (evs : List SubEvent) : List Entry :=
  evs.filterMap fun ev =>
    match ev with
    | .yield e => some e
    | _ => none

/-- All entries a script's batches contain, in script order. -/
def entriesOf (s : List ReadOutcome) : List Entry :=
  s.flatMap fun r =>
    match r with
    | .batch msgs => msgs
    | _ => []

theorem processBatch_yields_sublist (msgs : List Entry) :
    List.Sublist (yieldsOf (processBatch msgs).1) msgs := by
  induction msgs with
  | nil => simp [processBatch, yieldsOf]
  | cons m rest ih =>
    by_cases hf : m.isFinal
    · simp only [processBatch, hf, if_true, yieldsOf, List.filterMap_cons]
      exact (List.nil_sublist rest).cons₂ m
    · simpa [processBatch, hf, yieldsOf] using ih.cons₂ m

theorem processBatch_no_final (msgs : List Entry)
    (h : (processBatch msgs).2 = false) :
    ∀ e, SubEvent.yield e ∈ (processBatch msgs).1 → e.isFinal = false := by
  induction msgs with
  | nil => intro e he; simp [processBatch, yieldsOf] at he
  | cons m rest ih =>
    intro e he
    by_cases hf : m.isFinal
    · simp [processBatch, hf] at h
    · simp only [processBatch, hf, Bool.false_eq_true, if_false] at he h
      rcases List.mem_cons.mp he with heq | hmem
      · injection heq with heq'
        rw [heq']
        simpa using hf
      · exact ih h e hmem

theorem processBatch_nomid (msgs : List Entry) :
    ∀ e, SubEvent.yield e ∈ (processBatch msgs).1.dropLast → e.isFinal = false := by
  induction msgs with
  | nil => intro e he; simp [processBatch] at he
  | cons m rest ih =>
    intro e he
    by_cases hf : m.isFinal
    · simp [processBatch, hf] at he
    · simp only [processBatch, hf, if_false, Bool.false_eq_true] at he
      rcases hrest : (processBatch rest).1 with _ | ⟨x, xs⟩
      · simp [hrest] at he
      · rw [hrest] at he
        rw [List.dropLast_cons₂] at he
        rcases List.mem_cons.mp he with he | he
        · injection he with he'
          rw [he']
          simpa using hf
        · exact ih e (by rw [hrest]; exact he)

theorem processBatch_final_last (msgs : List Entry)
    (h : (processBatch msgs).2 = true) :
    ∃ e, (processBatch msgs).1.getLast? = some (.yield e) ∧ e.isFinal = true := by
  induction msgs with
  | nil => simp [processBatch] at h
  | cons m rest ih =>
    by_cases hf : m.isFinal
    · exact ⟨m, by simp [processBatch, hf], hf⟩
    · simp only [processBatch, hf, if_false, Bool.false_eq_true] at h ⊢
      obtain ⟨e, he, hef⟩ := ih h
      refine ⟨e, ?_, hef⟩
      have hne : (processBatch rest).1 ≠ [] := by
        intro hnil
        rw [hnil] at he
        simp at he
      rw [show (SubEvent.yield m :: (processBatch rest).1) =
        [SubEvent.yield m] ++ (processBatch rest).1 from rfl,
        List.getLast?_append_of_ne_nil _ hne]
      exact he

theorem subRun_yields_sublist (s : List ReadOutcome) :
    List.Sublist (yieldsOf (subRun s).1) (entriesOf s) := by
  induction s with
  | nil => simp [subRun, yieldsOf, entriesOf]
  | cons r rest ih =>
    cases r with
    | timeout => simpa [subRun, entriesOf] using ih
    | cancelledNow => simp [subRun, yieldsOf, entriesOf]
    | readErr m => simp [subRun, yieldsOf, entriesOf]
    | batch msgs =>
      by_cases hfin : (processBatch msgs).2
      · simp only [subRun, hfin, if_true, entriesOf, List.flatMap_cons]
        exact (processBatch_yields_sublist msgs).trans (List.sublist_append_left _ _)
      · simp only [subRun, hfin, Bool.false_eq_true, if_false, entriesOf,
          List.flatMap_cons, yieldsOf, List.filterMap_append]
        exact List.Sublist.append (processBatch_yields_sublist msgs) ih

theorem subRun_nomid (s : List ReadOutcome) :
    ∀ e, SubEvent.yield e ∈ (subRun s).1.dropLast → e.isFinal = false := by
  induction s with
  | nil => intro e he; simp [subRun] at he
  | cons r rest ih =>
    intro e he
    cases r with
    | timeout => exact ih e (by simpa [subRun] using he)
    | cancelledNow => simp [subRun] at he
    | readErr m => simp [subRun] at he
    | batch msgs =>
      by_cases hfin : (processBatch msgs).2
      · simp only [subRun, hfin, if_true] at he
        exact processBatch_nomid msgs e he
      · simp only [subRun, hfin, Bool.false_eq_true, if_false] at he
        rcases hrest : (subRun rest).1 with _ | ⟨x, xs⟩
        · rw [hrest, List.append_nil] at he
          exact processBatch_no_final msgs (by simpa using hfin) e
            ((List.dropLast_sublist _).subset he)
        · rw [hrest, List.dropLast_append_cons] at he
          rcases List.mem_append.mp he with he | he
          · exact processBatch_no_final msgs (by simpa using hfin) e he
          · exact ih e (by rw [hrest]; exact he)

theorem subRun_final_last (s : List ReadOutcome)
    (h : (subRun s).2 = .finalSeen) :
    ∃ e, (subRun s).1.getLast? = some (.yield e) ∧ e.isFinal = true := by
  induction s with
  | nil => simp [subRun] at h
  | cons r rest ih =>
    cases r with
    | timeout => simpa [subRun] using ih (by simpa [subRun] using h)
    | cancelledNow => simp [subRun] at h
    | readErr m => simp [subRun] at h
    | batch msgs =>
      by_cases hfin : (processBatch msgs).2
      · simp only [subRun, hfin, if_true]
        exact processBatch_final_last msgs hfin
      · simp only [subRun, hfin, Bool.false_eq_true, if_false] at h ⊢
        obtain ⟨e, he, hef⟩ := ih h
        refine ⟨e, ?_, hef⟩
        have hne : (subRun rest).1 ≠ [] := by
          intro hnil
          rw [hnil] at he
          simp at he
        rw [List.getLast?_append_of_ne_nil _ hne]
        exact he

theorem subRun_cancel_stops (pre post : List ReadOutcome) :
    subRun (pre ++ .cancelledNow :: post) = subRun (pre ++ [.cancelledNow]) := by
  induction pre with
  | nil => rfl
  | cons r rest ih =>
    cases r with
    | timeout => simpa [subRun] using ih
    | cancelledNow => rfl
    | readErr m => rfl
    | batch msgs =>
      by_cases hfin : (processBatch msgs).2
      · simp [subRun, hfin]
      · simp [subRun, hfin, ih]

/-- C7: over any scripted run of `Subscribe` whose batch entries arrive in
    append order, (a) the channel yields entries in append order; (b) an
    entry with `is_final=true` is only ever the last thing yielded, and when
    the loop ends for that reason the final entry was indeed yielded last;
    (c) once the context is cancelled the loop returns at the next suspension
    point: the remainder of the script is ignored, so no further entries are
    yielded after cancellation. -/
theorem c7_subscription_loop (s : List ReadOutcome)
    (hord : (entriesOf s).Pairwise (fun a b => eidLt a.id b.id = true)) :
    (yieldsOf (subRun s).1).Pairwise (fun a b => eidLt a.id b.id = true) ∧
    (∀ e, SubEvent.yield e ∈ (subRun s).1.dropLast → e.isFinal = false) ∧
    ((subRun s).2 = .finalSeen →
      ∃ e, (subRun s).1.getLast? = some (.yield e) ∧ e.isFinal = true) ∧
    (∀ pre post, subRun (pre ++ .cancelledNow :: post) = subRun (pre ++ [.cancelledNow])) := by
  exact ⟨hord.sublist (subRun_yields_sublist s), subRun_nomid s,
    subRun_final_last s, subRun_cancel_stops⟩

/-- Witness for C7 on a concrete script: two ordered batches with a final
    entry, followed by a read the loop never performs. -/
theorem c7_subscription_loop_witness :
    (subRun [.batch [⟨⟨1, 1⟩, 10, "s", "m", 0, false, ""⟩],
        .batch [⟨⟨2, 1⟩, 100, "done", "m", 1, true, "completed"⟩],
        .timeout]).1 =
      [.yield ⟨⟨1, 1⟩, 10, "s", "m", 0, false, ""⟩,
       .yield ⟨⟨2, 1⟩, 100, "done", "m", 1, true, "completed"⟩] ∧
    (yieldsOf (subRun [.batch [⟨⟨1, 1⟩, 10, "s", "m", 0, false, ""⟩],
        .batch [⟨⟨2, 1⟩, 100, "done", "m", 1, true, "completed"⟩],
        .timeout]).1).Pairwise (fun a b => eidLt a.id b.id = true) := by
  constructor
  · rfl
  · exact (c7_subscription_loop _ (by decide)).1

end TaskFlow


namespace TaskFlow

/-! ## Claim C8 — start_id semantics of Subscribe
    `Subscribe` (subscriber.go lines 45-53, 75-80) passes `start_id` straight
    to the broker's blocking stream read (`XRead` with `Streams: [key,
    lastID]`). The read-position semantics here are modelled from Redis
    `XREAD`: `$` resolves to the stream's current last id, any other argument
    must parse strictly as an `ms[-seq]` id (so `-`, which only range reads
    accept, is rejected with an invalid-stream-id error), and entries
    strictly after the resolved position are returned in order. The loop's
    net delivery over a log is the filtered suffix, truncated after an
    `is_final` entry. -/

/-- Split a character list at every dash, like `String.splitOn "-"`. -/
def splitOnDash : List Char → List (List Char)
  | [] => [[]]
  | c :: rest =>
    let r := splitOnDash rest
    if c = '-' then [] :: r
    else
      match r with
      | [] => [[c]]
      | h :: t => (c :: h) :: t

/-- Decimal digits to a number, as `String.toNat?`: all characters must be
    digits and there must be at least one. -/
def digitsToNat? (cs : List Char) : Option Nat :=
  if cs.isEmpty then none
  else if cs.all (fun c => c.isDigit) then
    some (cs.foldl (fun n c => n * 10 + (c.toNat - 48)) 0)
  else none

/-- Strict `XREAD` id parsing (`ms` or `ms-seq`; a missing sequence defaults
    to 0; `-` and `+` are not accepted). -/
def parseEID (s : String) : Option EID :=
  match splitOnDash s.toList with
  | [msCs] => (digitsToNat? msCs).map fun m => ⟨m, 0⟩
  | [msCs, seqCs] =>
    match digitsToNat? msCs, digitsToNat? seqCs with
    | some m, some q => some ⟨m, q⟩
    | _, _ => none
  | _ => none

/-- The default applied by `Subscribe` lines 50-53: an empty `start_id`
    becomes `$`. -/
def subscribeStartId (sid : String) : String :=
  if sid = "" then "$" else sid

/-- The id of the last entry of a log (`0-0` when empty). -/
def lastIdOf (l : List Entry) : EID :=
  ((l.getLast?).map (fun e => e.id)).getD ⟨0, 0⟩

/-- Resolution of the first read position: `$` is the current end of the
    stream, anything else must parse as an id. -/
def resolveStart (existing : List Entry) (sid : String) : Option EID :=
  if sid = "$" then some (lastIdOf existing) else parseEID sid

/-- Delivery stops after the first `is_final` entry (subscriber.go lines
    111-118). -/
def takeUntilFinal : List Entry → List Entry
  | [] => []
  | e :: rest => if e.isFinal then [e] else e :: takeUntilFinal rest

/-- What a subscription delivers: a read error, or the entries in order. -/
inductive Delivered
  | readFail (msg : String)
  | entries (l : List Entry)
  deriving DecidableEq, Repr

/-- Net delivery of a subscription over a log: `existing` is the log content
    when the subscription starts, `future` what is appended afterwards; an
    unparsable start id surfaces as a read error and nothing is yielded. -/
def subscribeDeliver (existing future : List Entry) (sid : String) : Delivered :=
  match resolveStart existing (subscribeStartId sid) with
  | none => .readFail "ERR Invalid stream ID specified as stream command argument"
  | some pos =>
    .entries (takeUntilFinal ((existing ++ future).filter fun e => eidLt pos e.id))

/-- Only the last entry of a log may carry `is_final`. -/
def finalsOnlyLast (l : List Entry) : Bool :=
  l.dropLast.all fun x => !x.isFinal

theorem eidLt_irrefl (a : EID) : eidLt a a = false := by
  simp [eidLt]

theorem eidLt_asymm (a b : EID) (h : eidLt a b = true) : eidLt b a = false := by
  simp only [eidLt, Bool.or_eq_true, Bool.and_eq_true, decide_eq_true_eq,
    Bool.or_eq_false_iff, Bool.and_eq_false_iff, decide_eq_false_iff_not] at h ⊢
  omega

theorem finalsOnlyLast_cons_cons (e x : Entry) (xs : List Entry) :
    finalsOnlyLast (e :: x :: xs) = true ↔
      e.isFinal = false ∧ finalsOnlyLast (x :: xs) = true := by
  simp [finalsOnlyLast, List.dropLast_cons₂]

theorem finalsOnlyLast_cons_of (e : Entry) (m : List Entry)
    (he : e.isFinal = false) (hm : finalsOnlyLast m = true) :
    finalsOnlyLast (e :: m) = true := by
  rcases m with _ | ⟨y, ys⟩
  · simp [finalsOnlyLast]
  · exact (finalsOnlyLast_cons_cons e y ys).mpr ⟨he, hm⟩

theorem takeUntilFinal_eq_self (l : List Entry) (h : finalsOnlyLast l = true) :
    takeUntilFinal l = l := by
  induction l with
  | nil => rfl
  | cons e rest ih =>
    rcases rest with _ | ⟨x, xs⟩
    · by_cases hf : e.isFinal <;> simp [takeUntilFinal, hf]
    · obtain ⟨he, hrest⟩ := (finalsOnlyLast_cons_cons e x xs).mp h
      rw [show takeUntilFinal (e :: x :: xs) =
        (if e.isFinal then [e] else e :: takeUntilFinal (x :: xs)) from rfl]
      simp only [he, Bool.false_eq_true, if_false]
      rw [ih hrest]

theorem finalsOnlyLast_filter (p : Entry → Bool) (l : List Entry)
    (h : finalsOnlyLast l = true) : finalsOnlyLast (l.filter p) = true := by
  induction l with
  | nil => rfl
  | cons e rest ih =>
    rcases rest with _ | ⟨x, xs⟩
    · by_cases hp : p e <;> simp [List.filter_cons, hp, finalsOnlyLast]
    · obtain ⟨he, hrest⟩ := (finalsOnlyLast_cons_cons e x xs).mp h
      have htail := ih hrest
      by_cases hp : p e
      · rw [List.filter_cons_of_pos hp]
        exact finalsOnlyLast_cons_of e _ he htail
      · rw [List.filter_cons_of_neg hp]
        exact htail

theorem finalsOnlyLast_append_right (l₁ l₂ : List Entry)
    (h : finalsOnlyLast (l₁ ++ l₂) = true) : finalsOnlyLast l₂ = true := by
  rcases l₂ with _ | ⟨x, xs⟩
  · rfl
  · rw [finalsOnlyLast] at h ⊢
    rw [List.dropLast_append_cons] at h
    simp only [List.all_append] at h
    exact (Bool.and_eq_true _ _ |>.mp h).2

theorem pairwise_lastId_max (l : List Entry)
    (h : l.Pairwise fun a b => eidLt a.id b.id = true) :
    ∀ x ∈ l, eidLt (lastIdOf l) x.id = false := by
  induction l with
  | nil => intro x hx; simp at hx
  | cons a t ih =>
    intro x hx
    rcases t with _ | ⟨b, bs⟩
    · rcases List.mem_singleton.mp hx with rfl
      simp [lastIdOf, eidLt_irrefl]
    · have hlast : lastIdOf (a :: b :: bs) = lastIdOf (b :: bs) := by
        simp [lastIdOf, List.getLast?_cons_cons]
      rw [hlast]
      rcases List.mem_cons.mp hx with rfl | hx
      · obtain ⟨e, he⟩ : ∃ e, (b :: bs).getLast? = some e := by
          rcases hlq : (b :: bs).getLast? with _ | e
          · exact absurd hlq (by simp [getLast?_cons_getD])
          · exact ⟨e, rfl⟩
        have hmem : e ∈ b :: bs := List.mem_of_getLast?_eq_some he
        have hae : eidLt x.id e.id = true :=
          (List.pairwise_cons.mp h).1 e hmem
        have hid : lastIdOf (b :: bs) = e.id := by simp [lastIdOf, he]
        rw [hid]
        exact eidLt_asymm _ _ hae
      · exact ih (List.pairwise_cons.mp h).2 x hx

theorem subscribeDeliver_of_resolve (existing future : List Entry) (sid : String)
    (pos : EID) (h : resolveStart existing (subscribeStartId sid) = some pos) :
    subscribeDeliver existing future sid =
      .entries (takeUntilFinal ((existing ++ future).filter fun e => eidLt pos e.id)) := by
  rw [subscribeDeliver, h]

end TaskFlow

namespace TaskFlow

/-- C8 counterexample: the claim says `start_id = "-"` yields all entries
    from the beginning of the log, but `Subscribe` passes `-` to the blocking
    stream read, which rejects it as an invalid stream id: the subscription
    yields a read error and no entries at all, even over a non-empty log. -/
theorem c8_dash_start_id_fails :
    subscribeDeliver [⟨⟨1, 1⟩, 10, "s", "m", 0, false, ""⟩] [] "-" =
      .readFail "ERR Invalid stream ID specified as stream command argument" ∧
    subscribeDeliver [⟨⟨1, 1⟩, 10, "s", "m", 0, false, ""⟩] [] "-" ≠
      .entries [⟨⟨1, 1⟩, 10, "s", "m", 0, false, ""⟩] := by
  constructor
  · rfl
  · decide

/-- C8 amended: over a log whose ids are in append order, strictly above
    `0-0`, with `is_final` at most on the last entry, the start position
    selects entries as follows — `$` (also the default for an empty
    `start_id`) yields exactly the entries appended after the subscription
    starts; `"0"` yields all entries from the beginning; any concrete id
    yields exactly the entries strictly after that id; but `"-"` is not a
    valid blocking-read position and yields a read error instead of the full
    log. -/
theorem c8_amended_start_id (existing future : List Entry)
    (hpw : (existing ++ future).Pairwise fun a b => eidLt a.id b.id = true)
    (hpos : ∀ x ∈ existing ++ future, eidLt ⟨0, 0⟩ x.id = true)
    (hfin : finalsOnlyLast (existing ++ future) = true) :
    (subscribeDeliver existing future "$" = .entries future ∧
      subscribeDeliver existing future "" = .entries future) ∧
    subscribeDeliver existing future "0" = .entries (existing ++ future) ∧
    (∀ sid pos, sid ≠ "$" → sid ≠ "" → parseEID sid = some pos →
      subscribeDeliver existing future sid =
        .entries ((existing ++ future).filter fun e => eidLt pos e.id)) ∧
    subscribeDeliver existing future "-" =
      .readFail "ERR Invalid stream ID specified as stream command argument" := by
  have hfilterDollar :
      ((existing ++ future).filter fun e => eidLt (lastIdOf existing) e.id) = future := by
    rw [List.filter_append]
    have h1 : (existing.filter fun e => eidLt (lastIdOf existing) e.id) = [] := by
      rw [List.filter_eq_nil_iff]
      intro a ha
      have hmax := pairwise_lastId_max existing ((List.pairwise_append.mp hpw).1) a ha
      simp [hmax]
    have h2 : (future.filter fun e => eidLt (lastIdOf existing) e.id) = future := by
      rw [List.filter_eq_self]
      intro a ha
      rcases hex : existing.getLast? with _ | e
      · have hnil : existing = [] := by
          rcases existing with _ | ⟨x, xs⟩
          · rfl
          · rw [getLast?_cons_getD] at hex
            simp at hex
        rw [hnil] at hpos
        simpa [lastIdOf, hex, hnil] using hpos a (by simpa using ha)
      · have hmem : e ∈ existing := List.mem_of_getLast?_eq_some hex
        have hrel := (List.pairwise_append.mp hpw).2.2 e hmem a ha
        simpa [lastIdOf, hex] using hrel
    rw [h1, h2, List.nil_append]
  have hdollar : subscribeDeliver existing future "$" = .entries future := by
    rw [subscribeDeliver_of_resolve existing future "$" (lastIdOf existing) rfl,
      hfilterDollar,
      takeUntilFinal_eq_self future (finalsOnlyLast_append_right existing future hfin)]
  refine ⟨⟨hdollar, ?_⟩, ?_, ?_, ?_⟩
  · rw [subscribeDeliver_of_resolve existing future "" (lastIdOf existing) rfl,
      hfilterDollar,
      takeUntilFinal_eq_self future (finalsOnlyLast_append_right existing future hfin)]
  · rw [subscribeDeliver_of_resolve existing future "0" ⟨0, 0⟩ rfl]
    have hfilter : ((existing ++ future).filter fun e => eidLt ⟨0, 0⟩ e.id) =
        existing ++ future := by
      rw [List.filter_eq_self]
      intro a ha
      exact hpos a ha
    rw [hfilter, takeUntilFinal_eq_self _ hfin]
  · intro sid pos hd he hp
    have hres : resolveStart existing (subscribeStartId sid) = some pos := by
      rw [subscribeStartId, if_neg he, resolveStart, if_neg hd]
      exact hp
    rw [subscribeDeliver_of_resolve existing future sid pos hres,
      takeUntilFinal_eq_self _ (finalsOnlyLast_filter _ _ hfin)]
  · rfl

/-- Witness for the amended C8 over a concrete two-entry log with one future
    entry: the `$`, `"0"` and concrete-id start positions are exercised. -/
theorem c8_amended_start_id_witness :
    subscribeDeliver
        [⟨⟨1, 1⟩, 10, "a", "m", 0, false, ""⟩, ⟨⟨2, 1⟩, 20, "b", "m", 1, false, ""⟩]
        [⟨⟨3, 1⟩, 99, "c", "m", 2, true, "completed"⟩] "$" =
      .entries [⟨⟨3, 1⟩, 99, "c", "m", 2, true, "completed"⟩] ∧
    subscribeDeliver
        [⟨⟨1, 1⟩, 10, "a", "m", 0, false, ""⟩, ⟨⟨2, 1⟩, 20, "b", "m", 1, false, ""⟩]
        [⟨⟨3, 1⟩, 99, "c", "m", 2, true, "completed"⟩] "0" =
      .entries [⟨⟨1, 1⟩, 10, "a", "m", 0, false, ""⟩, ⟨⟨2, 1⟩, 20, "b", "m", 1, false, ""⟩,
        ⟨⟨3, 1⟩, 99, "c", "m", 2, true, "completed"⟩] ∧
    subscribeDeliver
        [⟨⟨1, 1⟩, 10, "a", "m", 0, false, ""⟩, ⟨⟨2, 1⟩, 20, "b", "m", 1, false, ""⟩]
        [⟨⟨3, 1⟩, 99, "c", "m", 2, true, "completed"⟩] "1-1" =
      .entries [⟨⟨2, 1⟩, 20, "b", "m", 1, false, ""⟩,
        ⟨⟨3, 1⟩, 99, "c", "m", 2, true, "completed"⟩] := by
  have h := c8_amended_start_id
    [⟨⟨1, 1⟩, 10, "a", "m", 0, false, ""⟩, ⟨⟨2, 1⟩, 20, "b", "m", 1, false, ""⟩]
    [⟨⟨3, 1⟩, 99, "c", "m", 2, true, "completed"⟩]
    (by decide) (by decide) (by decide)
  refine ⟨h.1.1, h.2.1, ?_⟩
  have h3 := h.2.2.1 "1-1" ⟨1, 1⟩ (by decide) (by decide) (by decide)
  rw [h3]
  decide

end TaskFlow

namespace TaskFlow

/-! ## Claim C9 — multi-task stream fan-out
    Embedded from `ProgressHandler.StreamMultipleProgress`
    (progress_handler.go lines 254-345): the task_ids parameter is split on
    commas and bounded by 10; one reader per id feeds a merged channel of
    tagged results; the stream closure decrements `activeTasks` on every
    error or final result and stops when it reaches zero. -/

/-- Split a character list at every comma, like `String.splitOn ","`. -/
def splitOnComma : List Char → List (List Char)
  | [] => [[]]
  | c :: rest =>
    let r := splitOnComma rest
    if c = ',' then [] :: r
    else
      match r with
      | [] => [[c]]
      | h :: t => (c :: h) :: t

/-- Outcome of the task_ids validation at the top of
    `StreamMultipleProgress` (lines 255-270). -/
inductive MultiValidation
  | reject (status : Nat) (msg : String)
  | accept (ids : List String)
  deriving DecidableEq, Repr

/-- The validation: missing parameter, empty list and more than 10 ids are
    rejected with HTTP 400. -/
def validateTaskIds (param : String) : MultiValidation :=
  if param = "" then .reject 400 "task_ids is required"
  else
    let ids : List String := (splitOnComma param.toList).map fun cs => ⟨cs⟩
    if ids.length = 0 then .reject 400 "at least one task_id is required"
    else if ids.length > 10 then
      .reject 400 "maximum 10 tasks can be subscribed at once"
    else .accept ids

/-- One value a per-task reader forwards into the merged channel: an error
    result or an entry (final when `is_final` is set). -/
inductive MultiItem
  | errItem (msg : String)
  | entryItem (e : Entry)
  deriving DecidableEq, Repr

/-- A merged-channel element tagged with the originating task id. -/
structure Tagged where
  taskId : String
  item : MultiItem
  deriving DecidableEq, Repr

/-- Whether the element terminates its reader (error, or final entry). -/
def isTerminalItem : MultiItem → Bool
  | .errItem _ => true
  | .entryItem e => e.isFinal

/-- One SSE frame the merged stream emits, tagged by task id. -/
inductive MEvent
  | errEvent (taskId msg : String)
  | progEvent (taskId : String) (e : Entry)
  deriving DecidableEq, Repr

/-- The frame emitted for a merged-channel element (lines 315-338): errors
    become tagged `error` events, entries tagged `progress` events. -/
def eventOf (t : Tagged) : MEvent :=
  match t.item with
  | .errItem m => .errEvent t.taskId m
  | .entryItem e => .progEvent t.taskId e

/-- The task id a frame carries. -/
def taskIdOfEvent : MEvent → String
  | .errEvent tid _ => tid
  | .progEvent tid _ => tid

/-- The merged stream closure: emit the frame; a terminal element decrements
    `activeTasks` and the stream ends when it reaches zero. -/
def multiRun : Nat → List Tagged → List MEvent
  | _, [] => []
  | active, t :: rest =>
    let ev := eventOf t
    if isTerminalItem t.item then
      if active - 1 = 0 then [ev]
      else ev :: multiRun (active - 1) rest
    else ev :: multiRun active rest

/-- A merged script is an interleaving of `a` readers' outputs, each reader
    still to terminate exactly once: every element arrives while some reader
    is active and the script ends exactly when the last reader terminates. -/
def okScript : Nat → List Tagged → Bool
  | a, [] => a == 0
  | a, t :: rest =>
    decide (0 < a) && okScript (if isTerminalItem t.item then a - 1 else a) rest

theorem okScript_zero (s : List Tagged) (h : okScript 0 s = true) : s = [] := by
  cases s with
  | nil => rfl
  | cons t rest => simp [okScript] at h

theorem multiRun_complete (s : List Tagged) :
    ∀ a, okScript a s = true → multiRun a s = s.map eventOf := by
  induction s with
  | nil => intro a _; rfl
  | cons t rest ih =>
    intro a h
    rw [okScript, Bool.and_eq_true, decide_eq_true_eq] at h
    obtain ⟨hpos, hrest⟩ := h
    by_cases hterm : isTerminalItem t.item
    · rw [hterm] at hrest
      simp only [hterm, if_true] at hrest ⊢
      rw [multiRun]
      simp only [hterm, if_true]
      by_cases hz : a - 1 = 0
      · rw [hz] at hrest
        rw [okScript_zero rest hrest]
        simp [hz]
      · simp only [hz, if_false]
        rw [ih (a - 1) hrest]
        rfl
    · simp only [hterm, Bool.false_eq_true, if_false] at hrest
      rw [multiRun]
      simp only [hterm, Bool.false_eq_true, if_false]
      rw [ih a hrest]
      rfl

/-- C9: (a) a multi-task stream request with more than 10 task ids is
    rejected with HTTP 400 (and only then is that rejection produced); (b)
    every emitted frame is tagged with the originating reader's task id, and
    a reader failure becomes a tagged error frame; (c) over any interleaving
    of the readers' outputs in which each of the `k` readers terminates
    exactly once (error or final entry), the merged stream emits a frame for
    every element — a failure on one task id does not terminate the other
    readers' delivery — and closes exactly at the last reader's terminal
    element. -/
theorem c9_multi_task_stream (param : String) (k : Nat) (s : List Tagged) :
    (param ≠ "" →
      ((splitOnComma param.toList).length > 10 ↔
        validateTaskIds param =
          .reject 400 "maximum 10 tasks can be subscribed at once")) ∧
    (∀ t : Tagged, taskIdOfEvent (eventOf t) = t.taskId) ∧
    (∀ tid m, eventOf ⟨tid, .errItem m⟩ = .errEvent tid m) ∧
    (okScript k s = true → multiRun k s = s.map eventOf) := by
  refine ⟨?_, ?_, ?_, multiRun_complete s k⟩
  · intro hne
    constructor
    · intro hlen
      rw [validateTaskIds, if_neg hne]
      have hlen' : ((splitOnComma param.toList).map
          (fun cs => (⟨cs⟩ : String))).length > 10 := by
        simpa using hlen
      rw [if_neg (by omega), if_pos hlen']
    · intro hval
      rw [validateTaskIds, if_neg hne] at hval
      by_cases h0 : ((splitOnComma param.toList).map
          (fun cs => (⟨cs⟩ : String))).length = 0
      · rw [if_pos h0] at hval
        simp at hval
      · rw [if_neg h0] at hval
        by_cases h10 : ((splitOnComma param.toList).map
            (fun cs => (⟨cs⟩ : String))).length > 10
        · simpa using h10
        · rw [if_neg h10] at hval
          simp at hval
  · intro t
    cases h : t.item <;> simp [eventOf, h, taskIdOfEvent]
  · intro tid m
    rfl

/-- Witness for C9: a parameter with 11 task ids is rejected; a script in
    which reader "a" fails first and reader "b" still delivers a progress
    and a final entry is fully emitted. -/
theorem c9_multi_task_stream_witness :
    validateTaskIds "1,2,3,4,5,6,7,8,9,10,11" =
      .reject 400 "maximum 10 tasks can be subscribed at once" ∧
    multiRun 2
        [⟨"a", .errItem "read failed"⟩,
         ⟨"b", .entryItem ⟨⟨1, 1⟩, 50, "s", "m", 0, false, ""⟩⟩,
         ⟨"b", .entryItem ⟨⟨2, 1⟩, 100, "done", "m", 1, true, "completed"⟩⟩] =
      [.errEvent "a" "read failed",
       .progEvent "b" ⟨⟨1, 1⟩, 50, "s", "m", 0, false, ""⟩,
       .progEvent "b" ⟨⟨2, 1⟩, 100, "done", "m", 1, true, "completed"⟩] := by
  constructor
  · have h := (c9_multi_task_stream "1,2,3,4,5,6,7,8,9,10,11" 2 []).1 (by decide)
    exact h.mp (by decide)
  · have h := (c9_multi_task_stream "x" 2
        [⟨"a", .errItem "read failed"⟩,
         ⟨"b", .entryItem ⟨⟨1, 1⟩, 50, "s", "m", 0, false, ""⟩⟩,
         ⟨"b", .entryItem ⟨⟨2, 1⟩, 100, "done", "m", 1, true, "completed"⟩⟩]).2.2.2
      (by decide)
    rw [h]
    rfl

end TaskFlow

namespace TaskFlow

/-! ## Claim C10 — server-generated task ids
    Embedded from `Service.CreateTask` (service.go lines 40-97),
    `CreateTaskCommand`/`Validate` (commands.go), `task.NewTask`
    (domain/task/entity.go lines 41-57) and `Client.Enqueue`
    (infrastructure/queue/asynq/client.go lines 59-102). `uuid.New()` is
    modelled as the injected non-empty `freshId`; the broker's own id
    generation (used only when no task id option is supplied) as `autoId`;
    on a successful enqueue asynq returns a `TaskInfo` whose `ID` is the
    task id the enqueue used. Durations are milliseconds. -/

/-- The HTTP create command as the service receives it: note there is no id
    field — the request cannot carry a task id. `payloadWellFormed` models
    whether `json.Marshal` of the raw payload succeeds inside `NewTask`. -/
structure CreateTaskCmd where
  typeStr : String
  payload : String
  payloadWellFormed : Bool
  queue : String
  maxRetries : Int
  timeoutMs : Int
  uniqueMs : Int
  deriving DecidableEq, Repr

/-- Predicate `tasktype.Type.IsValid` (pkg/tasktype): demo and grpc_task. -/
def typeIsValid (t : String) : Bool :=
  t = "demo" || t = "grpc_task"

/-- Validation failures of task creation. -/
inductive CreateErr
  | invalidTaskType
  | invalidPayload
  | marshalFailed
  deriving DecidableEq, Repr

/-- Validation `CreateTaskCommand.Validate`: type must be registered, payload
    non-empty. -/
def cmdValidate (cmd : CreateTaskCmd) : Option CreateErr :=
  if !typeIsValid cmd.typeStr then some .invalidTaskType
  else if cmd.payload.isEmpty then some .invalidPayload
  else none

/-- The domain task (`task.Task`, the fields CreateTask touches). -/
structure DomainTask where
  id : String
  typeStr : String
  payload : String
  queue : String
  maxRetries : Int
  timeoutMs : Int
  deriving DecidableEq, Repr

/-- Constructor `task.NewTask`: marshal the payload (may fail), default queue from the
    type (always "default"), 3 retries, 30 minutes timeout, empty id. -/
def newTask (t payload : String) (wellFormed : Bool) : Option DomainTask :=
  if !wellFormed then none
  else some { id := "", typeStr := t, payload := payload, queue := "default",
              maxRetries := 3, timeoutMs := 1800000 }

/-- The overrides CreateTask applies from the command (service.go lines
    52-60), and the unconditional fresh id assignment of line 50. -/
def createdTask (freshId : String) (cmd : CreateTaskCmd) : Option DomainTask :=
  (newTask cmd.typeStr cmd.payload cmd.payloadWellFormed).map fun t0 =>
    { t0 with
      id := freshId
      queue := if cmd.queue != "" then cmd.queue else t0.queue
      maxRetries := if cmd.maxRetries > 0 then cmd.maxRetries else t0.maxRetries
      timeoutMs := if cmd.timeoutMs > 0 then cmd.timeoutMs else t0.timeoutMs }

/-- The enqueue options built at service.go lines 68-75: the task id option
    is the task's (fresh) id. -/
structure EnqueueOpts where
  queue : String
  maxRetries : Int
  timeoutMs : Int
  uniqueMs : Int
  taskID : String
  deriving DecidableEq, Repr

/-- Options passed to `Client.Enqueue` for a created task. -/
def buildOpts (t : DomainTask) (cmd : CreateTaskCmd) : EnqueueOpts :=
  { queue := t.queue, maxRetries := t.maxRetries, timeoutMs := t.timeoutMs,
    uniqueMs := cmd.uniqueMs, taskID := t.id }

/-- The task id `Client.Enqueue` attaches (client.go lines 93-97): the
    option's id when non-empty, else the task's, else broker-generated. -/
def chosenTaskId (t : DomainTask) (optTaskID autoId : String) : String :=
  if optTaskID != "" then optTaskID
  else if t.id != "" then t.id
  else autoId

/-- The broker's reply to a successful enqueue (asynq `TaskInfo`). -/
structure EnqueuedInfo where
  id : String
  queue : String
  state : String
  deriving DecidableEq, Repr

/-- A successful `Client.Enqueue` against the broker: the returned info
    carries the id the enqueue used and the effective queue. -/
def brokerEnqueue (t : DomainTask) (opts : EnqueueOpts) (autoId : String) :
    EnqueuedInfo :=
  let q := if t.queue != "" then t.queue else opts.queue
  { id := chosenTaskId t opts.taskID autoId, queue := q, state := "pending" }

/-- What `CreateTask` returns. -/
structure CreateTaskRes where
  taskID : String
  queue : String
  status : String
  deriving DecidableEq, Repr

/-- Outcome of `Service.CreateTask` (successful broker path). -/
inductive CreateOutcome
  | createErr (e : CreateErr)
  | created (r : CreateTaskRes)
  deriving DecidableEq, Repr

/-- Method `Service.CreateTask`: validate, build the domain task with the fresh id,
    enqueue, and return the broker-reported id/queue/state. -/
def createTask (freshId autoId : String) (cmd : CreateTaskCmd) : CreateOutcome :=
  match cmdValidate cmd with
  | some e => .createErr e
  | none =>
    match createdTask freshId cmd with
    | none => .createErr .marshalFailed
    | some t1 =>
      let info := brokerEnqueue t1 (buildOpts t1 cmd) autoId
      .created { taskID := info.id, queue := info.queue, status := info.state }

/-- C10: for every create request that passes validation, the created task's
    id is the fresh server-generated uuid: it is the task id passed to the
    broker, it is the id of the creation result, and it does not depend on
    any field of the request — two different valid requests created under the
    same fresh uuid report the same task id. -/
theorem c10_fresh_server_generated_id (freshId autoId : String)
    (cmd : CreateTaskCmd) (hval : cmdValidate cmd = none)
    (hwf : cmd.payloadWellFormed = true) (hfresh : freshId ≠ "") :
    (∀ t, createdTask freshId cmd = some t →
      t.id = freshId ∧
      (buildOpts t cmd).taskID = freshId ∧
      (brokerEnqueue t (buildOpts t cmd) autoId).id = freshId) ∧
    (∃ r, createTask freshId autoId cmd = .created r ∧ r.taskID = freshId) ∧
    (∀ cmd₂ r₂, cmdValidate cmd₂ = none → cmd₂.payloadWellFormed = true →
      createTask freshId autoId cmd₂ = .created r₂ → r₂.taskID = freshId) := by
  have hmk : ∀ (c : CreateTaskCmd), c.payloadWellFormed = true →
      ∀ t, createdTask freshId c = some t → t.id = freshId := by
    intro c hc t ht
    rw [createdTask, newTask, hc] at ht
    simp only [Bool.not_true, Bool.false_eq_true, if_false, Option.map_some] at ht
    rcases ht
    rfl
  have hsome : ∀ (c : CreateTaskCmd), c.payloadWellFormed = true →
      ∃ t, createdTask freshId c = some t := by
    intro c hc
    rw [createdTask, newTask, hc]
    exact ⟨_, rfl⟩
  have hbroker : ∀ (c : CreateTaskCmd) t, createdTask freshId c = some t →
      c.payloadWellFormed = true →
      (brokerEnqueue t (buildOpts t c) autoId).id = freshId := by
    intro c t ht hc
    have hid := hmk c hc t ht
    rw [brokerEnqueue, chosenTaskId, buildOpts]
    simp only [hid]
    simp [hfresh]
  have hcreated : ∀ (c : CreateTaskCmd), cmdValidate c = none →
      c.payloadWellFormed = true →
      ∃ r, createTask freshId autoId c = .created r ∧ r.taskID = freshId := by
    intro c hv hc
    obtain ⟨t, ht⟩ := hsome c hc
    have hcall : createTask freshId autoId c =
        .created { taskID := (brokerEnqueue t (buildOpts t c) autoId).id,
                   queue := (brokerEnqueue t (buildOpts t c) autoId).queue,
                   status := (brokerEnqueue t (buildOpts t c) autoId).state } := by
      rw [createTask, hv, ht]
    exact ⟨_, hcall, hbroker c t ht hc⟩
  refine ⟨?_, hcreated cmd hval hwf, ?_⟩
  · intro t ht
    have hid := hmk cmd hwf t ht
    exact ⟨hid, by rw [buildOpts]; exact hid, hbroker cmd t ht hwf⟩
  · intro cmd₂ r₂ hv₂ hwf₂ hc₂
    obtain ⟨r, hr, hrid⟩ := hcreated cmd₂ hv₂ hwf₂
    rw [hc₂] at hr
    injection hr with hr'
    rw [hr']
    exact hrid

/-- Witness for C10 at two concrete valid requests sharing one fresh uuid:
    both report that uuid, regardless of their differing fields. -/
theorem c10_fresh_server_generated_id_witness :
    createTask "uuid-1" "auto-9"
        ⟨"demo", "x", true, "", 0, 0, 0⟩ =
      .created ⟨"uuid-1", "default", "pending"⟩ ∧
    (∃ r, createTask "uuid-1" "auto-9"
        ⟨"grpc_task", "y", true, "high", 5, 1000, 0⟩ = .created r ∧
      r.taskID = "uuid-1") := by
  constructor
  · obtain ⟨r, hr, hrid⟩ := (c10_fresh_server_generated_id "uuid-1" "auto-9"
      ⟨"demo", "x", true, "", 0, 0, 0⟩ (by decide) (by decide) (by decide)).2.1
    rw [hr]
    rw [show createTask "uuid-1" "auto-9" ⟨"demo", "x", true, "", 0, 0, 0⟩ =
      .created ⟨"uuid-1", "default", "pending"⟩ from rfl] at hr
    injection hr with hr'
    rw [← hr']
  · exact (c10_fresh_server_generated_id "uuid-1" "auto-9"
      ⟨"grpc_task", "y", true, "high", 5, 1000, 0⟩ (by decide) (by decide)
      (by decide)).2.1

end TaskFlow
